import Mathlib

/-!
# Verification of the privacy-filter streaming pipeline

Shallow embedding, in Lean 4, of the core data structures and operations of
the real-time privacy filter: the consent/recognition database, the consent
filename grammar, the VAD (voice-activity detection) state machine with its
bounded transcription queue, the face-detection rectangle computation and
temporal cache, the input worker's disconnect path, frame timestamping, and
the shared connection state.

Each Python function named in the claims is translated into an executable
Lean definition; machine floats are modelled as exact rationals, Python
`int()` as truncation toward zero, Python dicts as association lists, and
in-place mutation as explicit state passing.
-/

namespace Protector

/-! ## Consent / recognition database (backend/filter/misc/face_recognizer.py)

The database is a flat list of `(file_path, name, feature)` tuples
(`FaceRecognizer.consented_faces`). Features are fixed-length f32 arrays,
modelled as lists of rationals.
-/

/-- A face feature vector (f32 array emitted by the recognizer). -/
abbrev Feature := List Rat

/-- One entry of `FaceRecognizer.consented_faces`: a `(file_path, name, feature)`
tuple. -/
structure ConsentEntry where
  path : String
  name : String
  feature : Feature
  deriving DecidableEq, Repr

/-- SFace cosine-distance threshold (`COSINE_THRESHOLD = 0.363`). -/
def COSINE_THRESHOLD : Rat := 363 / 1000

/-- SFace L2-distance threshold (`L2_THRESHOLD = 1.128`). -/
def L2_THRESHOLD : Rat := 1128 / 1000

/-- `FaceRecognizer.add_consented_face`: lowercase the name, drop every
existing entry with the same file path, then append the new entry. -/
def addConsentedFace (db : List ConsentEntry) (name : String) (feature : Feature)
    (filePath : String) : List ConsentEntry :=
  (db.filter fun e => e.path ≠ filePath) ++ [⟨filePath, name.toLower, feature⟩]

/-- `FaceRecognizer.remove_consented_face_by_file`: drop every entry with the
given file path. -/
def removeConsentedFaceByFile (db : List ConsentEntry) (filePath : String) :
    List ConsentEntry :=
  db.filter fun e => e.path ≠ filePath

/-- Modelled from the spec: the backend consent manager that wires the
filesystem watcher's delete events to the recognition database is not under
`src/` (only the filter iteration's name-keyed handler is). Per the spec,
"when a file is deleted, exactly its record is removed": the handler removes
the record keyed by the deleted file's path via
`FaceRecognizer.remove_consented_face_by_file`. -/
def handleConsentFileDeleted (db : List ConsentEntry) (filePath : String) :
    List ConsentEntry :=
  removeConsentedFaceByFile db filePath

/-- `FaceRecognizer.match_face`: walk the database in order; report the first
entry whose cosine score is strictly below `COSINE_THRESHOLD` or whose L2
score is strictly below `L2_THRESHOLD`. The two scores are produced by the
external SFace model (`recognizer.match`), passed here as score functions. -/
def matchFace (cosScore l2Score : Feature → Feature → Rat)
    (db : List ConsentEntry) (probe : Feature) : Bool × Option String :=
  match db with
  | [] => (false, none)
  | e :: rest =>
      if cosScore probe e.feature < COSINE_THRESHOLD ∨
          l2Score probe e.feature < L2_THRESHOLD then
        (true, some e.name)
      else
        matchFace cosScore l2Score rest probe

/-- `FaceRecognizer.match_face` threaded through the recognizer state, as the
method runs on `self`: the body only reads `self.consented_faces`, so the
database component is returned unchanged. -/
def matchFaceS (cosScore l2Score : Feature → Feature → Rat)
    (db : List ConsentEntry) (probe : Feature) :
    List ConsentEntry × Bool × Option String :=
  (db, matchFace cosScore l2Score db probe)

/-- A database state in which each file path keys at most one entry. -/
def UniquePaths (db : List ConsentEntry) : Prop :=
  ∀ p : String, (db.filter fun e => e.path = p).length ≤ 1

/-- Replay a sequence of `add_consented_face` calls, oldest first. -/
def applyAdds (db : List ConsentEntry) :
    List (String × Feature × String) → List ConsentEntry
  | [] => db
  | (n, f, p) :: rest => applyAdds (addConsentedFace db n f p) rest

/-! ## Consent filename grammar (misc/consent_capture.py, misc/consent_manager.py)

Filenames are modelled as lists of characters. -/

/-- Python `s.rsplit(sep, 1)` in the two-part case used by the code: split at
the LAST occurrence of `sep`, returning the parts before and after it;
`none` when `sep` does not occur (then `rsplit` yields a single part and
`_process_consent_file` rejects the filename). -/
def rsplitLast (sep : Char) : List Char → Option (List Char × List Char)
  | [] => none
  | c :: cs =>
      match rsplitLast sep cs with
      | some (b, a) => some (c :: b, a)
      | none => if c = sep then some ([], cs) else none

/-- The four characters of the `.jpg` extension. -/
def jpgSuffix : List Char := ['.', 'j', 'p', 'g']

/-- `ConsentManager._process_consent_file`, filename part: split at the last
underscore into `(timestamp_str, name_with_ext)`; require the second part to
end with `.jpg` (Python `endswith`); the name is `name_with_ext[:-4]`. -/
def parseConsentFilename (filename : List Char) :
    Option (List Char × List Char) :=
  match rsplitLast '_' filename with
  | none => none
  | some (timestampStr, nameWithExt) =>
      if nameWithExt.drop (nameWithExt.length - 4) = jpgSuffix then
        some (timestampStr, nameWithExt.take (nameWithExt.length - 4))
      else none

/-- Build a consent filename from a timestamp string and a name, following
the grammar `<timestamp>_<name>.jpg` used by the capture f-strings. -/
def formatConsentFilename (timestampStr name : List Char) : List Char :=
  timestampStr ++ '_' :: (name ++ jpgSuffix)

/-- A safe-name character: lowercase alphanumeric, `_`, or `-`. -/
def isSafeNameChar (c : Char) : Bool :=
  c.isDigit || (c.isAlpha && c.isLower) || c = '_' || c = '-'

/-- A filename matching the grammar `YYYYMMDDhhmmss_<safe_name>.jpg`. -/
def MatchesConsentGrammar (fn : List Char) : Prop :=
  ∃ ts nm, ts.length = 14 ∧ (∀ c ∈ ts, c.isDigit) ∧
    (∀ c ∈ nm, isSafeNameChar c = true) ∧ fn = ts ++ '_' :: (nm ++ jpgSuffix)

/-- Name sanitization in `ConsentCapture.save_head_image`: lowercase, keep
alphanumerics and the characters `_`, `-`, and space, turn spaces into
underscores, then strip leading and trailing underscores. -/
def sanitizeSpeakerName (speakerName : List Char) : List Char :=
  let kept := (speakerName.map Char.toLower).filter
    fun c => c.isAlphanum || c = '_' || c = '-' || c = ' '
  let underscored := kept.map fun c => if c = ' ' then '_' else c
  ((underscored.dropWhile fun c => c = '_').reverse.dropWhile
    fun c => c = '_').reverse

/-- The filename written by `ConsentCapture.save_head_image`:
`f"{timestamp}_{safe_name}_head.jpg"` when a (truthy) speaker name is given,
`f"{timestamp}_unknown_head.jpg"` otherwise. -/
def saveHeadImageFilename (timestamp : List Char)
    (speakerName : Option (List Char)) : List Char :=
  match speakerName with
  | some sn =>
      if sn.isEmpty then timestamp ++ "_unknown_head.jpg".toList
      else timestamp ++ "_".toList ++ sanitizeSpeakerName sn ++ "_head.jpg".toList
  | none => timestamp ++ "_unknown_head.jpg".toList

/-! ## VAD state machine and transcription queue (threads/transcription.py) -/

/-- The VAD parameters of `TranscriptionThread.__init__`. The sample counts
are precomputed there from millisecond arguments with integer division. -/
structure VadConfig where
  startSpeechProb : Rat
  keepSpeechProb : Rat
  stopSilenceSamples : Nat
  minSegmentSamples : Nat
  samplingRate : Nat
  chunkSize : Nat
  deriving Repr

/-- `TranscriptionThread.__init__`: derive the sample thresholds from the
millisecond parameters: `sampling_rate * ms // 1000`. -/
def mkVadConfig (startSpeechProb keepSpeechProb : Rat)
    (stopSilenceMs minSegmentMs samplingRate chunkSize : Nat) : VadConfig :=
  { startSpeechProb := startSpeechProb
    keepSpeechProb := keepSpeechProb
    stopSilenceSamples := samplingRate * stopSilenceMs / 1000
    minSegmentSamples := samplingRate * minSegmentMs / 1000
    samplingRate := samplingRate
    chunkSize := chunkSize }

/-- The defaults of `TranscriptionThread.__init__`. -/
def defaultVadConfig : VadConfig := mkVadConfig (1/10) (1/2) 500 300 16000 512

/-- An item of the transcription queue: float32 audio (int16 / 32768.0) with
the utterance's start and end stream times. -/
structure TranscriptionData where
  audio : List Rat
  startTime : Rat
  endTime : Rat
  deriving DecidableEq, Repr

/-- The mutable VAD fields of `TranscriptionThread`, together with the
contents of its bounded `transcription_queue`. -/
structure VadState where
  inSpeech : Bool
  silenceSamples : Nat
  speechBuffer : List (List Int)
  streamTimeOffset : Rat
  speechStartTime : Rat
  transcriptionQueue : List TranscriptionData
  deriving Repr

/-- `queue.Queue(maxsize=10)` in `TranscriptionThread.__init__`. -/
def TRANSCRIPTION_QUEUE_MAXSIZE : Nat := 10

/-- `queue.Queue.put_nowait` on the bounded queue: append when below
capacity, otherwise raise `queue.Full` (reported as `false`; the caller
drops the item with a warning). -/
def putNowait (q : List TranscriptionData) (item : TranscriptionData) :
    List TranscriptionData × Bool :=
  if q.length < TRANSCRIPTION_QUEUE_MAXSIZE then (q ++ [item], true)
  else (q, false)

/-- The segment `TranscriptionThread._queue_speech_for_transcription` hands
to `put_nowait`, if any: `none` when the speech buffer is empty or the
concatenated audio is shorter than `min_segment_samples`; otherwise the
int16 audio converted to float32 by dividing by 32768.0, with the recorded
start time and the current stream time. -/
def speechSegment (cfg : VadConfig) (st : VadState) : Option TranscriptionData :=
  if st.speechBuffer.isEmpty then none
  else
    let audio := st.speechBuffer.flatten
    if audio.length < cfg.minSegmentSamples then none
    else some ⟨audio.map fun s => (s : Rat) / 32768,
      st.speechStartTime, st.streamTimeOffset⟩

/-- `TranscriptionThread._queue_speech_for_transcription`: offer the segment
(when there is one) to the bounded queue with `put_nowait`; on `queue.Full`
the segment is dropped and the state is left unchanged. -/
def queueSpeechForTranscription (cfg : VadConfig) (st : VadState) : VadState :=
  match speechSegment cfg st with
  | none => st
  | some seg => { st with transcriptionQueue := (putNowait st.transcriptionQueue seg).1 }

/-- `TranscriptionThread._process_vad_chunk` for one chunk with VAD speech
probability `prob` (the Silero model call is external and enters as a
parameter). Stream time advances by `chunk_size / sampling_rate` at the end
regardless of state. -/
def processVadChunk (cfg : VadConfig) (st : VadState) (chunk : List Int)
    (prob : Rat) : VadState :=
  let st1 :=
    if st.inSpeech then
      let stA := { st with speechBuffer := st.speechBuffer ++ [chunk] }
      if prob > cfg.keepSpeechProb then
        { stA with silenceSamples := 0 }
      else
        let stB := { stA with silenceSamples := stA.silenceSamples + cfg.chunkSize }
        if stB.silenceSamples ≥ cfg.stopSilenceSamples then
          let stC := queueSpeechForTranscription cfg { stB with inSpeech := false }
          { stC with speechBuffer := [], silenceSamples := 0 }
        else stB
    else
      if prob > cfg.startSpeechProb then
        { st with inSpeech := true, speechStartTime := st.streamTimeOffset,
                  speechBuffer := st.speechBuffer ++ [chunk], silenceSamples := 0 }
      else st
  { st1 with streamTimeOffset :=
      st1.streamTimeOffset + (cfg.chunkSize : Rat) / (cfg.samplingRate : Rat) }

/-- `TranscriptionHandler._queue_speech_for_transcription` from the older
`transcription.py` iteration: the same length gate, but its
`transcription_queue` is an unbounded `queue.Queue()` holding
`(audio, start_time)` pairs, so `put_nowait` never raises `Full` and always
appends. -/
def handlerQueueSpeechForTranscription (minSegmentSamples : Nat)
    (speechBuffer : List (List Int)) (speechStartTime : Rat)
    (q : List (List Rat × Rat)) : List (List Rat × Rat) :=
  if speechBuffer.isEmpty then q
  else
    let audio := speechBuffer.flatten
    if audio.length < minSegmentSamples then q
    else q ++ [(audio.map fun s => (s : Rat) / 32768, speechStartTime)]

/-! ## Face rectangles and the temporal detection cache
(misc/face_detector.py, face_detector.py) -/

/-- Python `int()` on a float, modelled on rationals: truncation toward
zero. -/
def pyInt (q : Rat) : Int := if q < 0 then Int.ceil q else Int.floor q

/-- `FACE_MIN_CONFIDENCE = 0.5`. -/
def FACE_MIN_CONFIDENCE : Rat := 1 / 2

/-- `FACE_PADDING_RATIO = 0.1`. -/
def facePaddingRatio : Rat := 1 / 10

/-- One detector output row `(x, y, face_w, face_h, score)`. -/
structure FaceRow where
  x : Rat
  y : Rat
  faceW : Rat
  faceH : Rat
  score : Rat
  deriving DecidableEq, Repr

/-- The per-face body shared by `FaceDetector._extract_face_rectangles` and
`FaceDetector._apply_face_blur`: skip rows with `score <
FACE_MIN_CONFIDENCE`; otherwise `padding = int(min(face_w, face_h) *
FACE_PADDING_RATIO)`, `x1 = int(max(0, x - padding))`, `y1 = int(max(0, y -
padding))`, `x2 = int(min(width - 1, x + face_w + padding))`, `y2 =
int(min(height - 1, y + face_h + padding))`. -/
def paddedRect (width height : Nat) (f : FaceRow) :
    Option (Int × Int × Int × Int) :=
  if f.score < FACE_MIN_CONFIDENCE then none
  else
    let padding : Int := pyInt (min f.faceW f.faceH * facePaddingRatio)
    let x1 := pyInt (max 0 (f.x - (padding : Rat)))
    let y1 := pyInt (max 0 (f.y - (padding : Rat)))
    let x2 := pyInt (min ((width : Rat) - 1) (f.x + f.faceW + (padding : Rat)))
    let y2 := pyInt (min ((height : Rat) - 1) (f.y + f.faceH + (padding : Rat)))
    some (x1, y1, x2, y2)

/-- `FaceDetector._extract_face_rectangles`: the padded rectangles of the
sufficiently confident detections, in detection order. -/
def extractFaceRectangles (faces : List FaceRow) (width height : Nat) :
    List (Int × Int × Int × Int) :=
  faces.filterMap (paddedRect width height)

/-- The rectangle computation as the claim words it: `padding =
floor(min(face_w, face_h) * 0.1)`, corners `x1 = max(0, x - padding)`,
`y1 = max(0, y - padding)`, `x2 = min(w - 1, x + face_w + padding)`,
`y2 = min(h - 1, y + face_h + padding)`, with no integer conversion of the
corners. Stated only for comparison with `paddedRect`. -/
def specPaddedRect (width height : Nat) (f : FaceRow) :
    Option (Rat × Rat × Rat × Rat) :=
  if f.score < FACE_MIN_CONFIDENCE then none
  else
    let padding : Int := Int.floor (min f.faceW f.faceH * facePaddingRatio)
    let x1 := max 0 (f.x - (padding : Rat))
    let y1 := max 0 (f.y - (padding : Rat))
    let x2 := min ((width : Rat) - 1) (f.x + f.faceW + (padding : Rat))
    let y2 := min ((height : Rat) - 1) (f.y + f.faceH + (padding : Rat))
    some (x1, y1, x2, y2)

/-- A cached blur rectangle `(x1, y1, x2, y2)`. -/
abbrev Rect4 := Int × Int × Int × Int

/-- The caching fields of the `misc/face_detector.py` `FaceDetector`. -/
structure FaceDetectorState where
  currentInputSize : Option (Nat × Nat)
  cachedFaces : Option (List Rect4)
  cacheTimestamp : Rat
  cacheDurationMs : Rat
  deriving DecidableEq, Repr

/-- The cache-control core of `FaceDetector.blur_faces_in_frame`
(misc/face_detector.py) on a frame of size `w × h` at wall-clock `nowMs`:
when the cached rectangles are `None` or `cache_age_ms >
cache_duration_ms`, update the detector input size if the dimensions
changed, run the external detector (`detect`), store the extracted
rectangles and reset the cache timestamp (a miss); otherwise reuse the
cached rectangles (a hit). Returns the new state, whether the cache was
hit, and the rectangles subsequently applied to the frame. -/
def blurFacesCacheStep (st : FaceDetectorState) (w h : Nat) (nowMs : Rat)
    (detect : Nat → Nat → List FaceRow) : FaceDetectorState × Bool × List Rect4 :=
  let cacheAge := nowMs - st.cacheTimestamp
  if st.cachedFaces = none ∨ cacheAge > st.cacheDurationMs then
    let newSize := (w, h)
    let st1 :=
      if st.currentInputSize ≠ some newSize then
        { st with currentInputSize := some newSize }
      else st
    let faces := detect w h
    let rects := if faces.isEmpty then [] else extractFaceRectangles faces w h
    ({ st1 with cachedFaces := some rects, cacheTimestamp := nowMs }, false, rects)
  else
    (st, true, st.cachedFaces.getD [])

/-! ## Connection state (misc/state.py)

Python dicts live on a heap of dictionary objects so that the aliasing
behavior of `get_stream_metadata`'s `.copy()` is observable. -/

/-- A metadata dictionary (`dict[str, Any]`) as an association list. -/
abbrev Metadata := List (String × String)

/-- A heap of dictionary objects; a reference is an index into the heap. -/
abbrev DictHeap := List Metadata

/-- Dereference a dictionary. -/
def readDict (h : DictHeap) (r : Nat) : Metadata := h.getD r []

/-- In-place overwrite of the dictionary behind a reference. -/
def writeDict (h : DictHeap) (r : Nat) (d : Metadata) : DictHeap := h.set r d

/-- Python `dict.update`: keys already present are updated in place, new
keys are appended in order. -/
def dictUpdate (d upd : Metadata) : Metadata :=
  (d.map fun kv =>
    match upd.lookup kv.1 with
    | some v => (kv.1, v)
    | none => kv) ++ upd.filter fun kv => d.lookup kv.1 = none

/-- The fields of `ConnectionState`; `_stream_metadata` is a reference to a
heap dictionary. -/
structure ConnectionState where
  inputConnected : Bool
  outputConnected : Bool
  inputConnectTime : Option Rat
  outputConnectTime : Option Rat
  streamMetadataRef : Nat
  deriving DecidableEq, Repr

/-- `ConnectionState.set_input_connected` at wall-clock `now`. On
`connected = true`, record the connect time and, when a truthy (non-empty)
metadata dict is supplied, merge it into the stored dict with
`dict.update`; on `connected = false`, drop the connect time and clear the
stored dict in place. -/
def setInputConnected (st : ConnectionState) (h : DictHeap) (connected : Bool)
    (metadata : Option Metadata) (now : Rat) : ConnectionState × DictHeap :=
  if connected then
    ({ st with inputConnected := true, inputConnectTime := some now },
      match metadata with
      | some m =>
          if m.isEmpty then h
          else writeDict h st.streamMetadataRef
            (dictUpdate (readDict h st.streamMetadataRef) m)
      | none => h)
  else
    ({ st with inputConnected := false, inputConnectTime := none },
      writeDict h st.streamMetadataRef [])

/-- `ConnectionState.get_stream_metadata`: return
`self._stream_metadata.copy()` — a freshly allocated dict with the same
entries. -/
def getStreamMetadata (st : ConnectionState) (h : DictHeap) : Nat × DictHeap :=
  (h.length, h ++ [readDict h st.streamMetadataRef])

/-! ## Input worker disconnect (threads/input.py, threads/input_standalone.py) -/

/-- The fields of the BaseThread-style `InputThread` (threads/input.py)
relevant to disconnection; queue items are opaque. -/
structure InputThreadState where
  inContainer : Bool
  inputConnected : Bool
  videoQueue : List Nat
  audioQueue : List Nat
  transcriptionQueue : Option (List Nat)
  deriving DecidableEq, Repr

/-- `InputThread._disconnect` (threads/input.py): close and drop the input
container and publish `set_input_connected(False)`. The queues are not
touched. -/
def InputThread.disconnect (st : InputThreadState) : InputThreadState :=
  { st with inContainer := false, inputConnected := false }

/-- The fields of the standalone `InputThread`
(threads/input_standalone.py) relevant to disconnection. -/
structure StandaloneInputState where
  inContainer : Bool
  inputConnected : Bool
  waitingLogged : Bool
  videoQueue : List Nat
  audioQueue : List Nat
  vadQueue : Option (List Nat)
  deriving DecidableEq, Repr

/-- `InputThread._disconnect` (threads/input_standalone.py): close and drop
the container, publish `set_input_connected(False)`, reset
`waiting_logged`, and clear the video, audio and (when present) VAD
queues. -/
def StandaloneInput.disconnect (st : StandaloneInputState) : StandaloneInputState :=
  { st with inContainer := false, inputConnected := false, waitingLogged := false,
            videoQueue := [], audioQueue := [],
            vadQueue := st.vadQueue.map fun _ => [] }

/-! ## Frame timestamping (threads/input.py) -/

/-- The timestamp selection of `InputThread._process_video_frame` and
`_process_audio_frame`: `float(frame.time) if frame.time else
self.stream_time`. `frame.time` is `None` or a float; Python truthiness
sends both `None` and `0.0` to the last recorded stream time. -/
def frameTimestamp (frameTime : Option Rat) (streamTime : Rat) : Rat :=
  match frameTime with
  | some t => if t ≠ 0 then t else streamTime
  | none => streamTime

/-- A `VideoData` message `{frame, timestamp, sequence}`; the frame handle
is opaque. -/
structure VideoData where
  frameId : Nat
  timestamp : Rat
  sequence : Nat
  deriving DecidableEq, Repr

/-- The message built by `InputThread._process_video_frame` for a decoded
frame, given the worker's current stream time and sequence counter. -/
def emittedVideoData (frameId : Nat) (frameTime : Option Rat)
    (streamTime : Rat) (frameSequence : Nat) : VideoData :=
  ⟨frameId, frameTimestamp frameTime streamTime, frameSequence⟩

/-! ## Lemmas about rsplit and the consent filename grammar -/

theorem rsplitLast_eq_none (sep : Char) (l : List Char) :
    rsplitLast sep l = none ↔ sep ∉ l := by
  induction l with
  | nil => simp [rsplitLast]
  | cons c cs ih =>
      simp only [rsplitLast]
      cases h : rsplitLast sep cs with
      | some p =>
          have hmem : sep ∈ cs := by
            by_contra hn
            rw [ih.mpr hn] at h
            cases h
          simp [List.mem_cons, hmem]
      | none =>
          have hn : sep ∉ cs := ih.mp h
          by_cases hc : c = sep
          · simp [hc]
          · have : ¬ sep = c := fun hh => hc hh.symm
            simp [hc, hn, this]

theorem rsplitLast_eq_some (sep : Char) (l b a : List Char)
    (h : rsplitLast sep l = some (b, a)) : l = b ++ sep :: a ∧ sep ∉ a := by
  induction l generalizing b a with
  | nil => simp [rsplitLast] at h
  | cons c cs ih =>
      simp only [rsplitLast] at h
      cases hcs : rsplitLast sep cs with
      | some p =>
          obtain ⟨p1, p2⟩ := p
          rw [hcs] at h
          simp only [Option.some.injEq, Prod.mk.injEq] at h
          obtain ⟨hb, ha⟩ := h
          obtain ⟨h2, h3⟩ := ih p1 p2 hcs
          subst hb
          subst ha
          exact ⟨by rw [h2]; rfl, h3⟩
      | none =>
          rw [hcs] at h
          by_cases hc : c = sep
          · rw [if_pos hc] at h
            simp only [Option.some.injEq, Prod.mk.injEq] at h
            obtain ⟨hb, ha⟩ := h
            subst hb
            subst ha
            exact ⟨by rw [hc]; rfl,
              (rsplitLast_eq_none sep cs).mp hcs⟩
          · rw [if_neg hc] at h
            cases h

theorem rsplitLast_append (sep : Char) (a b : List Char) (h : sep ∉ b) :
    rsplitLast sep (a ++ sep :: b) = some (a, b) := by
  induction a with
  | nil =>
      simp only [List.nil_append, rsplitLast, (rsplitLast_eq_none sep b).mpr h]
      simp
  | cons c cs ih =>
      rw [List.cons_append]
      simp [rsplitLast, ih]

/-- Round-trip core: whatever `_process_consent_file` successfully parses,
re-formatting with the grammar reproduces the original filename. -/
theorem formatConsentFilename_parseConsentFilename (fn ts nm : List Char)
    (h : parseConsentFilename fn = some (ts, nm)) :
    formatConsentFilename ts nm = fn := by
  unfold parseConsentFilename at h
  cases hr : rsplitLast '_' fn with
  | none => rw [hr] at h; cases h
  | some p =>
      obtain ⟨b, a⟩ := p
      rw [hr] at h
      dsimp only at h
      by_cases hc : a.drop (a.length - 4) = jpgSuffix
      · rw [if_pos hc] at h
        simp only [Option.some.injEq, Prod.mk.injEq] at h
        obtain ⟨hb, hnm⟩ := h
        have hfn := (rsplitLast_eq_some '_' fn b a hr).1
        unfold formatConsentFilename
        rw [← hb, ← hnm, ← hc, List.take_append_drop, ← hfn]
      · rw [if_neg hc] at h
        cases h

theorem parseConsentFilename_of_ends_jpg (g : List Char) (hg : '_' ∈ g) :
    ∃ pre nm, parseConsentFilename (g ++ jpgSuffix) = some (pre, nm) := by
  cases hr : rsplitLast '_' (g ++ jpgSuffix) with
  | none =>
      exact absurd (List.mem_append_left jpgSuffix hg)
        ((rsplitLast_eq_none '_' (g ++ jpgSuffix)).mp hr)
  | some p =>
      obtain ⟨b, a⟩ := p
      obtain ⟨hfn, hna⟩ := rsplitLast_eq_some '_' (g ++ jpgSuffix) b a hr
      have hsufa : ('_' :: a) <:+ g ++ jpgSuffix := ⟨b, hfn.symm⟩
      have hsufj : jpgSuffix <:+ g ++ jpgSuffix := ⟨g, rfl⟩
      have hja : jpgSuffix <:+ a := by
        rcases List.suffix_or_suffix_of_suffix hsufa hsufj with hclaim | hclaim
        · exact absurd (hclaim.subset (List.mem_cons_self '_' a)) (by decide)
        · rcases List.suffix_cons_iff.mp hclaim with heq | hsuf
          · exact absurd (heq ▸ List.mem_cons_self '_' a : '_' ∈ jpgSuffix)
              (by decide)
          · exact hsuf
      obtain ⟨a0, ha0⟩ := hja
      have hdrop : a.drop (a.length - 4) = jpgSuffix := by
        rw [← ha0, List.length_append]
        show (a0 ++ jpgSuffix).drop (a0.length + jpgSuffix.length - 4) = jpgSuffix
        have : a0.length + jpgSuffix.length - 4 = a0.length := rfl
        rw [this, List.drop_left]
      refine ⟨b, a.take (a.length - 4), ?_⟩
      unfold parseConsentFilename
      rw [hr]
      dsimp only
      rw [if_pos hdrop]

/-- The characters of `"head.jpg"`, the tail that every capture filename
ends with after its last underscore. -/
theorem saveHeadImageFilename_shape (timestamp : List Char)
    (speakerName : Option (List Char)) :
    ∃ pre, saveHeadImageFilename timestamp speakerName =
      pre ++ '_' :: "head.jpg".toList := by
  cases speakerName with
  | some sn =>
      by_cases he : sn.isEmpty
      · refine ⟨timestamp ++ "_unknown".toList, ?_⟩
        simp only [saveHeadImageFilename, if_pos he]
        rw [List.append_assoc]
        rfl
      · refine ⟨timestamp ++ "_".toList ++ sanitizeSpeakerName sn, ?_⟩
        simp only [saveHeadImageFilename, if_neg he]
        rfl
  | none =>
      refine ⟨timestamp ++ "_unknown".toList, ?_⟩
      simp only [saveHeadImageFilename]
      rw [List.append_assoc]
      rfl

/-- Every filename written by the capture path parses with name component
`"head"`, whatever the timestamp and speaker name. -/
theorem parse_saveHeadImageFilename (timestamp : List Char)
    (speakerName : Option (List Char)) :
    ∃ pre, parseConsentFilename (saveHeadImageFilename timestamp speakerName) =
      some (pre, "head".toList) := by
  obtain ⟨pre, hpre⟩ := saveHeadImageFilename_shape timestamp speakerName
  refine ⟨pre, ?_⟩
  rw [hpre]
  have hr : rsplitLast '_' (pre ++ '_' :: "head.jpg".toList) =
      some (pre, "head.jpg".toList) :=
    rsplitLast_append '_' pre "head.jpg".toList (by decide)
  unfold parseConsentFilename
  rw [hr]
  rfl

/-! ## Lemmas about the consent database -/

theorem filter_path_ne_then_eq (db : List ConsentEntry) (p : String) :
    ((db.filter fun e => e.path ≠ p).filter fun e => e.path = p) = [] := by
  rw [List.filter_filter, List.filter_eq_nil_iff]
  intro a _
  by_cases h : a.path = p <;> simp [h]

theorem filter_path_eq_of_ne (db : List ConsentEntry) (p q : String)
    (hq : q ≠ p) :
    ((db.filter fun e => e.path ≠ p).filter fun e => e.path = q) =
      db.filter fun e => e.path = q := by
  rw [List.filter_filter]
  apply List.filter_congr
  intro a _
  by_cases ha : a.path = q
  · have hnp : a.path ≠ p := by rw [ha]; exact hq
    simp [ha, hnp, hq]
  · simp [ha]

theorem addConsentedFace_filter_self (db : List ConsentEntry) (n : String)
    (f : Feature) (p : String) :
    ((addConsentedFace db n f p).filter fun e => e.path = p) =
      [⟨p, n.toLower, f⟩] := by
  unfold addConsentedFace
  rw [List.filter_append, filter_path_ne_then_eq]
  simp [List.filter_cons]

theorem addConsentedFace_filter_other (db : List ConsentEntry) (n : String)
    (f : Feature) (p q : String) (hq : q ≠ p) :
    ((addConsentedFace db n f p).filter fun e => e.path = q) =
      db.filter fun e => e.path = q := by
  unfold addConsentedFace
  have hpq : ¬ p = q := fun hh => hq hh.symm
  rw [List.filter_append, filter_path_eq_of_ne db p q hq]
  simp [List.filter_cons, hpq]

theorem uniquePaths_nil : UniquePaths [] := by
  intro p
  simp [UniquePaths]

theorem uniquePaths_addConsentedFace (db : List ConsentEntry) (n : String)
    (f : Feature) (p : String) (h : UniquePaths db) :
    UniquePaths (addConsentedFace db n f p) := by
  intro q
  by_cases hq : q = p
  · rw [hq, addConsentedFace_filter_self]
    simp
  · rw [addConsentedFace_filter_other db n f p q hq]
    exact h q

theorem uniquePaths_applyAdds (ops : List (String × Feature × String))
    (db : List ConsentEntry) (h : UniquePaths db) :
    UniquePaths (applyAdds db ops) := by
  induction ops generalizing db with
  | nil => exact h
  | cons op rest ih =>
      exact ih _ (uniquePaths_addConsentedFace db op.1 op.2.1 op.2.2 h)

/-- C1. In the recognition database the file path is the unique key: an
`add_consented_face` for path `p` leaves exactly the new record keyed by
`p` and leaves the records of every other path untouched, so any sequence
of adds starting from the empty database keeps at most one record per
path; and the deletion of a consent file removes exactly the record keyed
by that file's path, leaving the records of all other paths unchanged. -/
theorem consentDb_path_is_unique_key :
    (∀ (db : List ConsentEntry) (n : String) (f : Feature) (p : String),
      ((addConsentedFace db n f p).filter fun e => e.path = p) =
        [⟨p, n.toLower, f⟩] ∧
      ∀ q, q ≠ p →
        ((addConsentedFace db n f p).filter fun e => e.path = q) =
          db.filter fun e => e.path = q) ∧
    (∀ ops, UniquePaths (applyAdds [] ops)) ∧
    (∀ (db : List ConsentEntry) (p : String),
      handleConsentFileDeleted db p = removeConsentedFaceByFile db p ∧
      ((handleConsentFileDeleted db p).filter fun e => e.path = p) = [] ∧
      ∀ q, q ≠ p →
        ((handleConsentFileDeleted db p).filter fun e => e.path = q) =
          db.filter fun e => e.path = q) := by
  refine ⟨fun db n f p => ⟨addConsentedFace_filter_self db n f p,
      fun q hq => addConsentedFace_filter_other db n f p q hq⟩,
    fun ops => uniquePaths_applyAdds ops [] uniquePaths_nil,
    fun db p => ⟨rfl, filter_path_ne_then_eq db p,
      fun q hq => filter_path_eq_of_ne db p q hq⟩⟩

/-- Witness for `consentDb_path_is_unique_key` at a concrete database. -/
theorem consentDb_path_is_unique_key_witness :
    ((addConsentedFace [⟨"/c/a.jpg", "alice", [1]⟩] "Bob" [2] "/c/b.jpg").filter
        fun e => e.path = "/c/a.jpg") =
      [⟨"/c/a.jpg", "alice", [1]⟩] := by
  have h := (consentDb_path_is_unique_key.1
    [⟨"/c/a.jpg", "alice", [1]⟩] "Bob" [2] "/c/b.jpg").2 "/c/a.jpg" (by decide)
  rw [h]
  rfl

/-- C5. `match_face` reports a match iff some known record scores strictly
below the cosine threshold or strictly below the L2 threshold against the
probe; a reported name is the name of a record satisfying that
disjunction; and the database is not mutated by matching. -/
theorem matchFace_reports_threshold_match
    (cos l2 : Feature → Feature → Rat) (db : List ConsentEntry)
    (probe : Feature) :
    (matchFaceS cos l2 db probe).1 = db ∧
    ((matchFace cos l2 db probe).1 = true ↔
      ∃ e ∈ db, cos probe e.feature < COSINE_THRESHOLD ∨
        l2 probe e.feature < L2_THRESHOLD) ∧
    ((matchFace cos l2 db probe).2.isSome ↔
      (matchFace cos l2 db probe).1 = true) ∧
    (∀ name, (matchFace cos l2 db probe).2 = some name →
      ∃ e ∈ db, e.name = name ∧ (cos probe e.feature < COSINE_THRESHOLD ∨
        l2 probe e.feature < L2_THRESHOLD)) := by
  refine ⟨rfl, ?_, ?_, ?_⟩
  · induction db with
    | nil => simp [matchFace]
    | cons e rest ih =>
        by_cases h : cos probe e.feature < COSINE_THRESHOLD ∨
            l2 probe e.feature < L2_THRESHOLD
        · simp [matchFace, h]
        · simp only [matchFace, if_neg h, List.mem_cons]
          rw [ih]
          constructor
          · rintro ⟨a, ha, hs⟩
            exact ⟨a, Or.inr ha, hs⟩
          · rintro ⟨a, ha | ha, hs⟩
            · exact absurd (ha ▸ hs) h
            · exact ⟨a, ha, hs⟩
  · induction db with
    | nil => simp [matchFace]
    | cons e rest ih =>
        by_cases h : cos probe e.feature < COSINE_THRESHOLD ∨
            l2 probe e.feature < L2_THRESHOLD
        · simp [matchFace, h]
        · simpa [matchFace, if_neg h] using ih
  · induction db with
    | nil => intro name h; simp [matchFace] at h
    | cons e rest ih =>
        intro name hname
        by_cases h : cos probe e.feature < COSINE_THRESHOLD ∨
            l2 probe e.feature < L2_THRESHOLD
        · refine ⟨e, List.mem_cons_self e rest, ?_, h⟩
          simpa [matchFace, h] using hname
        · have hname2 : (matchFace cos l2 rest probe).2 = some name := by
            simpa [matchFace, if_neg h] using hname
          obtain ⟨a, ha, hn, hs⟩ := ih name hname2
          exact ⟨a, List.mem_cons_of_mem e ha, hn, hs⟩

/-- C2 (amended). For every filename matching the grammar
`YYYYMMDDhhmmss_<safe_name>.jpg`, parsing and re-formatting reproduces the
original filename; but the capture path appends `_head` before `.jpg`, so
the name component parsed back from any captured file is the literal
`"head"`, not the sanitized speaker name. -/
theorem consentFilename_roundtrip :
    (∀ fn, MatchesConsentGrammar fn →
      ∃ ts nm, parseConsentFilename fn = some (ts, nm) ∧
        formatConsentFilename ts nm = fn) ∧
    (∀ timestamp speakerName,
      ∃ pre, parseConsentFilename
          (saveHeadImageFilename timestamp speakerName) =
        some (pre, "head".toList)) := by
  constructor
  · rintro fn ⟨ts, nm, hlen, hdig, hsafe, rfl⟩
    have hshape : ts ++ '_' :: (nm ++ jpgSuffix) =
        (ts ++ '_' :: nm) ++ jpgSuffix := by
      rw [List.append_assoc]
      rfl
    rw [hshape]
    obtain ⟨pre, n2, hp⟩ := parseConsentFilename_of_ends_jpg
      (ts ++ '_' :: nm) (by simp)
    exact ⟨pre, n2, hp,
      formatConsentFilename_parseConsentFilename _ pre n2 hp⟩
  · exact parse_saveHeadImageFilename

/-- Witness for `consentFilename_roundtrip` at the concrete filename
`20250101120000_alice.jpg`. -/
theorem consentFilename_roundtrip_witness :
    ∃ ts nm,
      parseConsentFilename "20250101120000_alice.jpg".toList = some (ts, nm) ∧
      formatConsentFilename ts nm = "20250101120000_alice.jpg".toList :=
  consentFilename_roundtrip.1 "20250101120000_alice.jpg".toList
    ⟨"20250101120000".toList, "alice".toList, by decide, by decide, by decide,
      by decide⟩

/-- Counterexample to C2 as stated: the capture path for speaker `alice`
(whose sanitized name is `alice` itself) produces
`20250101120000_alice_head.jpg`, and parsing it yields the name component
`head`, not `alice`: the name produced by the capture path is NOT parsed
back unchanged. -/
theorem consentFilename_capture_name_not_preserved :
    sanitizeSpeakerName "alice".toList = "alice".toList ∧
    saveHeadImageFilename "20250101120000".toList (some "alice".toList) =
      "20250101120000_alice_head.jpg".toList ∧
    parseConsentFilename "20250101120000_alice_head.jpg".toList =
      some ("20250101120000_alice".toList, "head".toList) ∧
    "head".toList ≠ "alice".toList := by
  refine ⟨by decide, by decide, ?_, by decide⟩
  decide

/-- Witness for `matchFace_reports_threshold_match` at a concrete database
and concrete score functions. -/
theorem matchFace_reports_threshold_match_witness :
    ∃ e ∈ [ConsentEntry.mk "/c/a.jpg" "alice" [1]], e.name = "alice" ∧
      ((fun _ _ : Feature => (0 : Rat)) [5] e.feature < COSINE_THRESHOLD ∨
        (fun _ _ : Feature => (2 : Rat)) [5] e.feature < L2_THRESHOLD) :=
  (matchFace_reports_threshold_match (fun _ _ => 0) (fun _ _ => 2)
    [⟨"/c/a.jpg", "alice", [1]⟩] [5]).2.2.2 "alice" (by
      simp only [matchFace]
      rw [if_pos]
      left
      rw [COSINE_THRESHOLD]
      norm_num)

/-! ## VAD state machine theorems -/

/-- C3 (amended). In SPEAKING, every chunk is appended to the speech
buffer; a chunk with `prob > keep_speech_prob` resets `silence_samples` to
0; otherwise `silence_samples` grows by `chunk_size`, and the transition to
SILENCE with utterance emission happens exactly on the chunk that makes
`silence_samples ≥ stop_silence_samples` (inclusive boundary); the emitted
utterance is enqueued iff its total length is at least
`min_segment_samples` AND the bounded transcription queue is below its
capacity of 10, and is discarded otherwise. -/
theorem vad_speaking_chunk (cfg : VadConfig) (st : VadState)
    (chunk : List Int) (prob : Rat) (hs : st.inSpeech = true) :
    (prob > cfg.keepSpeechProb →
      processVadChunk cfg st chunk prob =
        { st with speechBuffer := st.speechBuffer ++ [chunk],
                  silenceSamples := 0,
                  streamTimeOffset := st.streamTimeOffset +
                    (cfg.chunkSize : Rat) / (cfg.samplingRate : Rat) }) ∧
    (¬ prob > cfg.keepSpeechProb →
      st.silenceSamples + cfg.chunkSize < cfg.stopSilenceSamples →
      processVadChunk cfg st chunk prob =
        { st with speechBuffer := st.speechBuffer ++ [chunk],
                  silenceSamples := st.silenceSamples + cfg.chunkSize,
                  streamTimeOffset := st.streamTimeOffset +
                    (cfg.chunkSize : Rat) / (cfg.samplingRate : Rat) }) ∧
    (¬ prob > cfg.keepSpeechProb →
      st.silenceSamples + cfg.chunkSize ≥ cfg.stopSilenceSamples →
      processVadChunk cfg st chunk prob =
        { inSpeech := false,
          silenceSamples := 0,
          speechBuffer := [],
          streamTimeOffset := st.streamTimeOffset +
            (cfg.chunkSize : Rat) / (cfg.samplingRate : Rat),
          speechStartTime := st.speechStartTime,
          transcriptionQueue :=
            if (st.speechBuffer ++ [chunk]).flatten.length ≥
                  cfg.minSegmentSamples ∧
                st.transcriptionQueue.length < TRANSCRIPTION_QUEUE_MAXSIZE
            then st.transcriptionQueue ++
              [⟨(st.speechBuffer ++ [chunk]).flatten.map
                  fun s => (s : Rat) / 32768,
                st.speechStartTime, st.streamTimeOffset⟩]
            else st.transcriptionQueue }) := by
  refine ⟨?_, ?_, ?_⟩
  · intro hp
    unfold processVadChunk
    rw [hs]
    simp only [if_true, if_pos hp]
  · intro hp hlt
    unfold processVadChunk
    rw [hs]
    simp only [if_true, if_neg hp, if_neg (Nat.not_le.mpr hlt)]
  · intro hp hge
    unfold processVadChunk
    rw [hs]
    simp only [if_true, if_neg hp, if_pos hge]
    unfold queueSpeechForTranscription speechSegment
    have hne : (st.speechBuffer ++ [chunk]).isEmpty = false := by
      cases st.speechBuffer <;> rfl
    simp only [hne, Bool.false_eq_true, if_false]
    by_cases hlen : (st.speechBuffer ++ [chunk]).flatten.length <
        cfg.minSegmentSamples
    · rw [if_pos hlen]
      dsimp only
      rw [if_neg]
      intro hcl
      exact absurd hcl.1 (Nat.not_le.mpr hlen)
    · rw [if_neg hlen]
      dsimp only
      unfold putNowait
      by_cases hql : st.transcriptionQueue.length < TRANSCRIPTION_QUEUE_MAXSIZE
      · rw [if_pos hql, if_pos ⟨Nat.not_lt.mp hlen, hql⟩]
      · rw [if_neg hql, if_neg]
        intro hcl
        exact absurd hcl.2 hql

/-- Witness for `vad_speaking_chunk`: on the boundary chunk the machine
leaves SPEAKING. -/
theorem vad_speaking_chunk_witness :
    (processVadChunk ⟨1/10, 1/2, 2, 1, 1, 1⟩ ⟨true, 1, [[5]], 0, 0, []⟩
      [7] 0).inSpeech = false := by
  have h := (vad_speaking_chunk ⟨1/10, 1/2, 2, 1, 1, 1⟩
    ⟨true, 1, [[5]], 0, 0, []⟩ [7] 0 rfl).2.2 (by norm_num) (by decide)
  rw [h]

/-- Counterexample to C3 as stated: with the transcription queue already
holding 10 items, the boundary chunk still emits the utterance (length 2 ≥
min_segment_samples = 1) but the segment is NOT enqueued — the queue is
left unchanged — so "enqueued iff total length ≥ min_segment_samples" fails
on a full queue. -/
theorem vad_enqueue_iff_full_queue_cex :
    (processVadChunk ⟨1/10, 1/2, 2, 1, 1, 1⟩
        ⟨true, 1, [[5]], 0, 0, List.replicate 10 ⟨[], 0, 0⟩⟩
        [7] 0).transcriptionQueue = List.replicate 10 ⟨[], 0, 0⟩ ∧
    ([[5], [7]] : List (List Int)).flatten.length ≥ 1 := by
  constructor
  · have h := (vad_speaking_chunk ⟨1/10, 1/2, 2, 1, 1, 1⟩
      ⟨true, 1, [[5]], 0, 0, List.replicate 10 ⟨[], 0, 0⟩⟩ [7] 0 rfl).2.2
      (by norm_num) (by decide)
    rw [h]
    rw [if_neg]
    intro hcl
    exact absurd hcl.2 (by decide)
  · decide

/-! ## Transcription queue theorems -/

/-- C8 (amended). In the thread pipeline the transcription queue is bounded
with capacity 10; an emitted segment is enqueued without blocking when the
queue is below capacity and dropped (with the VAD state otherwise
unchanged) when it is full; the segment carries the int16 audio converted
to float32 by dividing by 32768.0 together with the utterance's start and
end times. In the older `TranscriptionHandler`, by contrast, the queue is
unbounded and the enqueue always succeeds. -/
theorem transcription_queue_capacity (cfg : VadConfig) (st : VadState)
    (seg : TranscriptionData) (hseg : speechSegment cfg st = some seg) :
    TRANSCRIPTION_QUEUE_MAXSIZE = 10 ∧
    (st.transcriptionQueue.length < 10 →
      queueSpeechForTranscription cfg st =
        { st with transcriptionQueue := st.transcriptionQueue ++ [seg] }) ∧
    (st.transcriptionQueue.length ≥ 10 →
      queueSpeechForTranscription cfg st = st) ∧
    (st.speechBuffer.isEmpty = false ∧
      st.speechBuffer.flatten.length ≥ cfg.minSegmentSamples ∧
      seg = ⟨st.speechBuffer.flatten.map fun s => (s : Rat) / 32768,
        st.speechStartTime, st.streamTimeOffset⟩) ∧
    (∀ (m : Nat) (buf : List (List Int)) (t : Rat) (q : List (List Rat × Rat)),
      buf.isEmpty = false → m ≤ buf.flatten.length →
      handlerQueueSpeechForTranscription m buf t q =
        q ++ [(buf.flatten.map fun s => (s : Rat) / 32768, t)]) := by
  have hbits : st.speechBuffer.isEmpty = false ∧
      st.speechBuffer.flatten.length ≥ cfg.minSegmentSamples ∧
      seg = ⟨st.speechBuffer.flatten.map fun s => (s : Rat) / 32768,
        st.speechStartTime, st.streamTimeOffset⟩ := by
    unfold speechSegment at hseg
    by_cases hne : st.speechBuffer.isEmpty
    · rw [if_pos hne] at hseg
      cases hseg
    · rw [if_neg hne] at hseg
      by_cases hlen : st.speechBuffer.flatten.length < cfg.minSegmentSamples
      · rw [if_pos hlen] at hseg
        cases hseg
      · rw [if_neg hlen] at hseg
        simp only [Option.some.injEq] at hseg
        exact ⟨Bool.eq_false_iff.mpr hne, Nat.not_lt.mp hlen, hseg.symm⟩
  refine ⟨rfl, ?_, ?_, hbits, ?_⟩
  · intro hq
    unfold queueSpeechForTranscription
    rw [hseg]
    dsimp only
    unfold putNowait
    rw [if_pos (show st.transcriptionQueue.length <
      TRANSCRIPTION_QUEUE_MAXSIZE from hq)]
  · intro hq
    unfold queueSpeechForTranscription
    rw [hseg]
    dsimp only
    unfold putNowait
    rw [if_neg (show ¬ st.transcriptionQueue.length <
      TRANSCRIPTION_QUEUE_MAXSIZE from Nat.not_lt.mpr hq)]
  · intro m buf t q hne hm
    unfold handlerQueueSpeechForTranscription
    rw [hne]
    simp only [Bool.false_eq_true, if_false]
    rw [if_neg (Nat.not_lt.mpr hm)]

/-- Witness for `transcription_queue_capacity` at a concrete state. -/
theorem transcription_queue_capacity_witness :
    queueSpeechForTranscription ⟨1/10, 1/2, 2, 1, 1, 1⟩
        ⟨false, 0, [[5]], 3, 2, []⟩ =
      { inSpeech := false, silenceSamples := 0, speechBuffer := [[5]],
        streamTimeOffset := 3, speechStartTime := 2,
        transcriptionQueue := [⟨[((5 : Int) : Rat) / 32768], 2, 3⟩] } := by
  have h := (transcription_queue_capacity ⟨1/10, 1/2, 2, 1, 1, 1⟩
    ⟨false, 0, [[5]], 3, 2, []⟩
    ⟨[((5 : Int) : Rat) / 32768], 2, 3⟩ rfl).2.1 (by decide)
  rw [h]
  rfl

/-- Counterexample to C8 as stated: the older `TranscriptionHandler`'s
transcription queue is not bounded at capacity 10 — with 10 items already
queued, an emitted segment is still appended (length becomes 11) instead
of being dropped. -/
theorem transcription_queue_handler_unbounded_cex :
    (handlerQueueSpeechForTranscription 1 [[5]] 0
      (List.replicate 10 ([], 0))).length = 11 := by
  show (handlerQueueSpeechForTranscription 1 [[5]] 0
    (List.replicate 10 ([], 0))).length = 11
  unfold handlerQueueSpeechForTranscription
  rw [if_neg (by decide), if_neg (by decide)]
  rw [List.length_append]
  rfl

/-! ## Face rectangle theorems -/

theorem pyInt_eq_floor (q : Rat) (h : 0 ≤ q) : pyInt q = Int.floor q :=
  if_neg (not_lt.mpr h)

theorem pyInt_nonneg (q : Rat) (h : 0 ≤ q) : 0 ≤ pyInt q := by
  rw [pyInt_eq_floor q h]
  exact Int.le_floor.mpr (by exact_mod_cast h)

theorem pyInt_le (q : Rat) (z : Int) (h : q ≤ (z : Rat)) : pyInt q ≤ z := by
  unfold pyInt
  by_cases hq : q < 0
  · rw [if_pos hq]
    exact Int.ceil_le.mpr h
  · rw [if_neg hq]
    exact_mod_cast ((Int.floor_le q).trans h)

/-- C4 (amended). A detection with score below `FACE_MIN_CONFIDENCE` (0.5)
contributes no rectangle; a detection with score at least 0.5 contributes
the rectangle with `padding = int(min(face_w, face_h) * 0.1)` (Python
`int()`, equal to `floor` when the face dimensions are nonnegative) and
int-truncated corners `x1 = int(max(0, x - padding))`, `y1 = int(max(0, y -
padding))`, `x2 = int(min(w - 1, x + face_w + padding))`, `y2 = int(min(h -
1, y + face_h + padding))`; every produced rectangle has `0 ≤ x1`, `0 ≤
y1`, `x2 ≤ w - 1` and `y2 ≤ h - 1`. -/
theorem faceRect_confidence_padding_clip (w h : Nat) (f : FaceRow)
    (faces : List FaceRow) :
    (f.score < FACE_MIN_CONFIDENCE →
      extractFaceRectangles (f :: faces) w h =
        extractFaceRectangles faces w h) ∧
    (FACE_MIN_CONFIDENCE ≤ f.score →
      extractFaceRectangles (f :: faces) w h =
        (pyInt (max 0 (f.x -
            (pyInt (min f.faceW f.faceH * facePaddingRatio) : Rat))),
          pyInt (max 0 (f.y -
            (pyInt (min f.faceW f.faceH * facePaddingRatio) : Rat))),
          pyInt (min ((w : Rat) - 1) (f.x + f.faceW +
            (pyInt (min f.faceW f.faceH * facePaddingRatio) : Rat))),
          pyInt (min ((h : Rat) - 1) (f.y + f.faceH +
            (pyInt (min f.faceW f.faceH * facePaddingRatio) : Rat)))) ::
          extractFaceRectangles faces w h) ∧
    (0 ≤ min f.faceW f.faceH →
      pyInt (min f.faceW f.faceH * facePaddingRatio) =
        Int.floor (min f.faceW f.faceH * facePaddingRatio)) ∧
    (∀ x1 y1 x2 y2, paddedRect w h f = some (x1, y1, x2, y2) →
      0 ≤ x1 ∧ 0 ≤ y1 ∧ x2 ≤ (w : Int) - 1 ∧ y2 ≤ (h : Int) - 1) := by
  refine ⟨?_, ?_, ?_, ?_⟩
  · intro hlow
    unfold extractFaceRectangles
    rw [List.filterMap_cons]
    unfold paddedRect
    rw [if_pos hlow]
  · intro hhi
    unfold extractFaceRectangles
    rw [List.filterMap_cons]
    unfold paddedRect
    rw [if_neg (not_lt.mpr hhi)]
  · intro hmin
    exact pyInt_eq_floor _ (mul_nonneg hmin (by norm_num [facePaddingRatio]))
  · intro x1 y1 x2 y2 hrect
    unfold paddedRect at hrect
    by_cases hlow : f.score < FACE_MIN_CONFIDENCE
    · rw [if_pos hlow] at hrect
      cases hrect
    · rw [if_neg hlow] at hrect
      simp only [Option.some.injEq, Prod.mk.injEq] at hrect
      obtain ⟨h1, h2, h3, h4⟩ := hrect
      refine ⟨?_, ?_, ?_, ?_⟩
      · rw [← h1]
        exact pyInt_nonneg _ (le_max_left 0 _)
      · rw [← h2]
        exact pyInt_nonneg _ (le_max_left 0 _)
      · rw [← h3]
        refine pyInt_le _ ((w : Int) - 1) ?_
        push_cast
        exact min_le_left _ _
      · rw [← h4]
        refine pyInt_le _ ((h : Int) - 1) ?_
        push_cast
        exact min_le_left _ _

/-- Witness for `faceRect_confidence_padding_clip`: every rectangle of a
concrete confident detection is inside the frame bounds. -/
theorem faceRect_confidence_padding_clip_witness :
    0 ≤ (8 : Int) ∧ 0 ≤ (0 : Int) ∧ (32 : Int) ≤ (100 : Int) - 1 ∧
      (22 : Int) ≤ (100 : Int) - 1 := by
  have heval : paddedRect 100 100 ⟨21/2, 0, 20, 20, 9/10⟩ =
      some (8, 0, 32, 22) := by
    unfold paddedRect
    rw [if_neg (by norm_num [FACE_MIN_CONFIDENCE])]
    have hpad : pyInt (min (20 : Rat) 20 * facePaddingRatio) = 2 := by
      rw [pyInt_eq_floor _ (by norm_num [facePaddingRatio])]
      rw [Int.floor_eq_iff]
      norm_num [facePaddingRatio]
    rw [show ((⟨21/2, 0, 20, 20, 9/10⟩ : FaceRow).faceW) = 20 from rfl]
    rw [show ((⟨21/2, 0, 20, 20, 9/10⟩ : FaceRow).faceH) = 20 from rfl]
    rw [hpad]
    have h1 : pyInt (max 0 ((21 : Rat)/2 - ((2 : Int) : Rat))) = 8 := by
      rw [pyInt_eq_floor _ (le_max_left 0 _)]
      rw [max_eq_right (by norm_num)]
      rw [Int.floor_eq_iff]
      norm_num
    have h2 : pyInt (max 0 ((0 : Rat) - ((2 : Int) : Rat))) = 0 := by
      rw [pyInt_eq_floor _ (le_max_left 0 _)]
      rw [max_eq_left (by norm_num)]
      norm_num
    have h3 : pyInt (min (((100 : Nat) : Rat) - 1)
        ((21 : Rat)/2 + 20 + ((2 : Int) : Rat))) = 32 := by
      rw [pyInt_eq_floor _ (by
        rw [min_def]
        split <;> norm_num)]
      rw [min_eq_right (by norm_num)]
      rw [Int.floor_eq_iff]
      norm_num
    have h4 : pyInt (min (((100 : Nat) : Rat) - 1)
        ((0 : Rat) + 20 + ((2 : Int) : Rat))) = 22 := by
      rw [pyInt_eq_floor _ (by
        rw [min_def]
        split <;> norm_num)]
      rw [min_eq_right (by norm_num)]
      norm_num
    dsimp only
    rw [h1, h2, h3, h4]
  exact (faceRect_confidence_padding_clip 100 100 ⟨21/2, 0, 20, 20, 9/10⟩
    []).2.2.2 8 0 32 22 heval

/-- Counterexample to C4 as stated: for the detection row
`(x, y, w, h, score) = (10.5, 0, 20, 20, 0.9)` on a 100×100 frame the code
computes `x1 = int(max(0, 10.5 - 2)) = 8`, while the claim's formula
`x1 = max(0, x - padding)` gives `8.5`: the claim omits the integer
truncation of the corners. -/
theorem faceRect_corner_truncation_cex :
    paddedRect 100 100 ⟨21/2, 0, 20, 20, 9/10⟩ = some (8, 0, 32, 22) ∧
    specPaddedRect 100 100 ⟨21/2, 0, 20, 20, 9/10⟩ =
      some (17/2, 0, 65/2, 22) ∧
    ((8 : Int) : Rat) ≠ 17/2 := by
  refine ⟨?_, ?_, by norm_num⟩
  · unfold paddedRect
    rw [if_neg (by norm_num [FACE_MIN_CONFIDENCE])]
    have hpad : pyInt (min (20 : Rat) 20 * facePaddingRatio) = 2 := by
      rw [pyInt_eq_floor _ (by norm_num [facePaddingRatio])]
      rw [Int.floor_eq_iff]
      norm_num [facePaddingRatio]
    rw [show ((⟨21/2, 0, 20, 20, 9/10⟩ : FaceRow).faceW) = 20 from rfl]
    rw [show ((⟨21/2, 0, 20, 20, 9/10⟩ : FaceRow).faceH) = 20 from rfl]
    rw [hpad]
    have h1 : pyInt (max 0 ((21 : Rat)/2 - ((2 : Int) : Rat))) = 8 := by
      rw [pyInt_eq_floor _ (le_max_left 0 _)]
      rw [max_eq_right (by norm_num)]
      rw [Int.floor_eq_iff]
      norm_num
    have h2 : pyInt (max 0 ((0 : Rat) - ((2 : Int) : Rat))) = 0 := by
      rw [pyInt_eq_floor _ (le_max_left 0 _)]
      rw [max_eq_left (by norm_num)]
      norm_num
    have h3 : pyInt (min (((100 : Nat) : Rat) - 1)
        ((21 : Rat)/2 + 20 + ((2 : Int) : Rat))) = 32 := by
      rw [pyInt_eq_floor _ (by
        rw [min_def]
        split <;> norm_num)]
      rw [min_eq_right (by norm_num)]
      rw [Int.floor_eq_iff]
      norm_num
    have h4 : pyInt (min (((100 : Nat) : Rat) - 1)
        ((0 : Rat) + 20 + ((2 : Int) : Rat))) = 22 := by
      rw [pyInt_eq_floor _ (by
        rw [min_def]
        split <;> norm_num)]
      rw [min_eq_right (by norm_num)]
      norm_num
    dsimp only
    rw [h1, h2, h3, h4]
  · unfold specPaddedRect
    rw [if_neg (by norm_num [FACE_MIN_CONFIDENCE])]
    have hpad : Int.floor (min (20 : Rat) 20 * facePaddingRatio) = 2 := by
      rw [Int.floor_eq_iff]
      norm_num [facePaddingRatio]
    dsimp only
    rw [hpad]
    rw [max_eq_right (by norm_num), max_eq_left (by norm_num),
      min_eq_right (by norm_num), min_eq_right (by norm_num)]
    norm_num

/-! ## Face cache theorems -/

/-- C6 (amended). Cached rectangles are reused exactly when they exist and
the cache age is at most `cache_duration_ms` (inclusive), regardless of the
frame dimensions; on a hit the detector state is untouched and the cached
rectangles are the ones applied; only on a miss is the detector input size
set to the current frame's dimensions and the rectangle cache rebuilt with
the current timestamp. -/
theorem faceCache_reuse_rule (st : FaceDetectorState) (w h : Nat)
    (nowMs : Rat) (detect : Nat → Nat → List FaceRow) :
    ((blurFacesCacheStep st w h nowMs detect).2.1 = true ↔
      st.cachedFaces ≠ none ∧
        nowMs - st.cacheTimestamp ≤ st.cacheDurationMs) ∧
    ((blurFacesCacheStep st w h nowMs detect).2.1 = true →
      (blurFacesCacheStep st w h nowMs detect).1 = st ∧
      (blurFacesCacheStep st w h nowMs detect).2.2 =
        st.cachedFaces.getD []) ∧
    ((blurFacesCacheStep st w h nowMs detect).2.1 = false →
      (blurFacesCacheStep st w h nowMs detect).1.currentInputSize =
        some (w, h) ∧
      (blurFacesCacheStep st w h nowMs detect).1.cachedFaces =
        some ((blurFacesCacheStep st w h nowMs detect).2.2) ∧
      (blurFacesCacheStep st w h nowMs detect).1.cacheTimestamp = nowMs) := by
  unfold blurFacesCacheStep
  by_cases hc : st.cachedFaces = none ∨
      nowMs - st.cacheTimestamp > st.cacheDurationMs
  · rw [if_pos hc]
    dsimp only
    refine ⟨?_, ?_, ?_⟩
    · constructor
      · intro hfalse
        exact Bool.noConfusion hfalse
      · rintro ⟨hne, hage⟩
        rcases hc with hnone | hgt
        · exact absurd hnone hne
        · exact absurd hage (not_le.mpr hgt)
    · intro hfalse
      exact Bool.noConfusion hfalse
    · intro _
      refine ⟨?_, rfl, rfl⟩
      by_cases hsz : st.currentInputSize ≠ some (w, h)
      · rw [if_pos hsz]
      · rw [if_neg hsz]
        exact not_not.mp hsz
  · rw [if_neg hc]
    push_neg at hc
    refine ⟨?_, fun _ => ⟨rfl, rfl⟩, fun hfalse => absurd hfalse (by simp)⟩
    simp only [true_iff]
    exact ⟨hc.1, hc.2⟩

/-- Witness for `faceCache_reuse_rule`: a concrete fresh cache is reused. -/
theorem faceCache_reuse_rule_witness :
    (blurFacesCacheStep ⟨some (640, 480), some [(0, 0, 10, 10)], 0, 100⟩
      640 480 50 fun _ _ => []).2.1 = true := by
  have h := (faceCache_reuse_rule
    ⟨some (640, 480), some [(0, 0, 10, 10)], 0, 100⟩ 640 480 50
    fun _ _ => []).1
  rw [h]
  exact ⟨by simp, by norm_num⟩

/-- Counterexample to C6 as stated: (i) at cache age exactly equal to
`cache_duration_ms` the code still reuses the cache, though the age is not
strictly below the duration; (ii) on a frame whose dimensions differ from
the cached frame's, a fresh cache is still reused: the detector input size
is not updated and the cached rectangles ARE applied to the frame of the
new size. -/
theorem faceCache_boundary_and_resize_cex :
    ((blurFacesCacheStep ⟨some (640, 480), some [(0, 0, 10, 10)], 0, 100⟩
        640 480 100 fun _ _ => []).2.1 = true ∧
      ¬ ((100 : Rat) - 0 < 100)) ∧
    ((blurFacesCacheStep ⟨some (640, 480), some [(0, 0, 10, 10)], 0, 100⟩
        1280 720 50 fun _ _ => []).2.1 = true ∧
      (blurFacesCacheStep ⟨some (640, 480), some [(0, 0, 10, 10)], 0, 100⟩
        1280 720 50 fun _ _ => []).1.currentInputSize = some (640, 480) ∧
      (blurFacesCacheStep ⟨some (640, 480), some [(0, 0, 10, 10)], 0, 100⟩
        1280 720 50 fun _ _ => []).2.2 = [(0, 0, 10, 10)]) := by
  constructor
  · constructor
    · unfold blurFacesCacheStep
      rw [if_neg]
      intro hor
      rcases hor with hnone | hgt
      · cases hnone
      · exact absurd hgt (by norm_num)
    · norm_num
  · have hmiss : ¬ ((⟨some (640, 480), some [(0, 0, 10, 10)], 0, 100⟩ :
        FaceDetectorState).cachedFaces = none ∨
        (50 : Rat) - (⟨some (640, 480), some [(0, 0, 10, 10)], 0, 100⟩ :
          FaceDetectorState).cacheTimestamp >
          (⟨some (640, 480), some [(0, 0, 10, 10)], 0, 100⟩ :
            FaceDetectorState).cacheDurationMs) := by
      intro hor
      rcases hor with hnone | hgt
      · cases hnone
      · exact absurd hgt (by norm_num)
    refine ⟨?_, ?_, ?_⟩
    · unfold blurFacesCacheStep
      rw [if_neg hmiss]
    · unfold blurFacesCacheStep
      rw [if_neg hmiss]
    · unfold blurFacesCacheStep
      rw [if_neg hmiss]
      rfl

/-! ## Input worker disconnect theorems -/

/-- C7 (amended). The standalone input worker's `_disconnect` closes the
container, publishes `input_connected = false`, and clears the video, audio
and (when present) VAD queues, so no stale frame survives into the next
session; but the BaseThread input worker's `_disconnect` only closes the
container and publishes `input_connected = false` — its queues are left
untouched. -/
theorem inputWorker_disconnect_behavior (st : StandaloneInputState)
    (st2 : InputThreadState) :
    ((StandaloneInput.disconnect st).videoQueue = [] ∧
      (StandaloneInput.disconnect st).audioQueue = [] ∧
      (∀ q, st.vadQueue = some q →
        (StandaloneInput.disconnect st).vadQueue = some []) ∧
      (StandaloneInput.disconnect st).inputConnected = false ∧
      (StandaloneInput.disconnect st).inContainer = false) ∧
    ((InputThread.disconnect st2).inputConnected = false ∧
      (InputThread.disconnect st2).inContainer = false ∧
      (InputThread.disconnect st2).videoQueue = st2.videoQueue ∧
      (InputThread.disconnect st2).audioQueue = st2.audioQueue ∧
      (InputThread.disconnect st2).transcriptionQueue =
        st2.transcriptionQueue) := by
  refine ⟨⟨rfl, rfl, ?_, rfl, rfl⟩, rfl, rfl, rfl, rfl, rfl⟩
  intro q hq
  unfold StandaloneInput.disconnect
  dsimp only
  rw [hq]
  rfl

/-- Witness for `inputWorker_disconnect_behavior` at concrete worker
states. -/
theorem inputWorker_disconnect_behavior_witness :
    (StandaloneInput.disconnect
      ⟨true, true, true, [1, 2], [3], some [4]⟩).vadQueue = some [] := by
  have h := (inputWorker_disconnect_behavior
    ⟨true, true, true, [1, 2], [3], some [4]⟩
    ⟨true, true, [], [], none⟩).1.2.2.1 [4] rfl
  rw [h]

/-- Counterexample to C7 as stated: in the BaseThread input worker
(threads/input.py), `_disconnect` does not clear the downstream queues — a
stale frame enqueued before the stream error is still enqueued after the
disconnect. -/
theorem inputWorker_disconnect_stale_frame_cex :
    (InputThread.disconnect ⟨true, true, [42], [], none⟩).videoQueue =
      [42] ∧ ([42] : List Nat) ≠ [] := by
  exact ⟨rfl, by decide⟩

/-! ## Frame timestamp theorems -/

/-- C9 (amended). The emitted message carries `timestamp = frame.time` when
`frame.time` is present AND nonzero; when `frame.time` is `None` — and
also, by Python truthiness, when it equals `0.0` — the message carries the
last recorded stream time instead. -/
theorem frameTimestamp_rule (t streamTime : Rat) (fid seq : Nat) :
    (t ≠ 0 → emittedVideoData fid (some t) streamTime seq =
      ⟨fid, t, seq⟩) ∧
    (emittedVideoData fid (some 0) streamTime seq =
      ⟨fid, streamTime, seq⟩) ∧
    (emittedVideoData fid none streamTime seq = ⟨fid, streamTime, seq⟩) := by
  refine ⟨?_, ?_, rfl⟩
  · intro ht
    unfold emittedVideoData frameTimestamp
    dsimp only
    rw [if_pos ht]
  · unfold emittedVideoData frameTimestamp
    dsimp only
    rw [if_neg (by simp)]

/-- Witness for `frameTimestamp_rule`: a nonzero frame time is carried
through. -/
theorem frameTimestamp_rule_witness :
    emittedVideoData 9 (some 7) 5 3 = ⟨9, 7, 3⟩ :=
  (frameTimestamp_rule 7 5 9 3).1 (by norm_num)

/-- Counterexample to C9 as stated: a frame whose time is present and equal
to `0.0`, arriving when the last stream time is `5`, is emitted with
timestamp `5`, not its own time `0`. -/
theorem frameTimestamp_zero_cex :
    frameTimestamp (some 0) 5 = 5 ∧ (5 : Rat) ≠ 0 := by
  constructor
  · unfold frameTimestamp
    dsimp only
    rw [if_neg (by simp)]
  · norm_num

/-! ## Connection state theorems -/

/-- C10. `set_input_connected(false)` clears the stored stream metadata and
drops the input connect time while leaving both output-connection fields
(and the metadata reference itself) unchanged; and `get_stream_metadata`
returns a copy: the returned dict holds the same entries, and overwriting
it with any contents leaves the `ConnectionState`'s internal metadata
unchanged. -/
theorem connectionState_disconnect_and_copy (st : ConnectionState)
    (h : DictHeap) (md : Option Metadata) (now : Rat)
    (href : st.streamMetadataRef < h.length) :
    ((setInputConnected st h false md now).1.inputConnected = false ∧
      (setInputConnected st h false md now).1.inputConnectTime = none ∧
      readDict (setInputConnected st h false md now).2
        st.streamMetadataRef = [] ∧
      (setInputConnected st h false md now).1.outputConnected =
        st.outputConnected ∧
      (setInputConnected st h false md now).1.outputConnectTime =
        st.outputConnectTime ∧
      (setInputConnected st h false md now).1.streamMetadataRef =
        st.streamMetadataRef) ∧
    (readDict (getStreamMetadata st h).2 (getStreamMetadata st h).1 =
      readDict h st.streamMetadataRef ∧
      ∀ d : Metadata,
        readDict (writeDict (getStreamMetadata st h).2
          (getStreamMetadata st h).1 d) st.streamMetadataRef =
        readDict h st.streamMetadataRef) := by
  constructor
  · refine ⟨rfl, rfl, ?_, rfl, rfl, rfl⟩
    show readDict (writeDict h st.streamMetadataRef []) st.streamMetadataRef = []
    unfold readDict writeDict
    rw [List.getD_eq_getElem?_getD, List.getElem?_set_self (by simpa using href)]
    rfl
  · constructor
    · show readDict (h ++ [readDict h st.streamMetadataRef]) h.length =
        readDict h st.streamMetadataRef
      unfold readDict
      rw [List.getD_eq_getElem?_getD, List.getElem?_concat_length]
      rfl
    · intro d
      show readDict (writeDict (h ++ [readDict h st.streamMetadataRef])
        h.length d) st.streamMetadataRef = readDict h st.streamMetadataRef
      unfold readDict writeDict
      rw [List.getD_eq_getElem?_getD,
        List.getElem?_set_ne (Nat.ne_of_gt href),
        List.getElem?_append_left href, List.getD_eq_getElem?_getD]

/-- Witness for `connectionState_disconnect_and_copy` at a concrete state
and heap. -/
theorem connectionState_disconnect_and_copy_witness :
    readDict (setInputConnected ⟨true, true, some 1, some 2, 0⟩
      [[("video_codec", "h264")]] false none 3).2 0 = [] :=
  ((connectionState_disconnect_and_copy ⟨true, true, some 1, some 2, 0⟩
    [[("video_codec", "h264")]] none 3 (by decide)).1).2.2.1

end Protector
